import Mathlib

/-!
Verification of the portmap routing/cleanup subsystem.

The development shallowly embeds the hosts-file sentinel codec
(`src/hosts/parser.rs`), the content-level cleanup transform used by
`HostsManager::restore_all` and `sync_cleanup` (`src/hosts/manager.rs`),
and the request-forwarding handler (`src/proxy/handler.rs`).

Rust strings are modelled as `List Char` (`Str`); `str::lines`,
`str::trim` and `str::split_whitespace` are modelled by executable
functions below that follow the documented Rust semantics.
-/

/-- Rust strings, modelled as lists of Unicode scalar values. -/
abbrev Str := List Char

/-- Unicode White_Space property, as used by Rust `char::is_whitespace`. -/
def rustIsWhitespace (c : Char) : Bool :=
  decide ((9 ≤ c.toNat ∧ c.toNat ≤ 13) ∨ c.toNat = 32 ∨ c.toNat = 133 ∨
    c.toNat = 160 ∨ c.toNat = 5760 ∨ (8192 ≤ c.toNat ∧ c.toNat ≤ 8202) ∨
    c.toNat = 8232 ∨ c.toNat = 8233 ∨ c.toNat = 8239 ∨ c.toNat = 8287 ∨
    c.toNat = 12288)

/-- Split a string at every newline character, keeping empty pieces
(the splitting step of Rust `str::lines`). -/
def splitNl : Str → List Str
  | [] => [[]]
  | c :: rest =>
    if c = '\n' then [] :: splitNl rest
    else
      match splitNl rest with
      | [] => [[c]]
      | t :: ts => (c :: t) :: ts

/-- Remove one trailing carriage return, as Rust `str::strip_suffix('\r')`
applied by `str::lines` to every piece that was terminated by a newline. -/
def stripCr (l : Str) : Str :=
  if l.getLast? = some '\r' then l.dropLast else l

/-- Finish Rust `str::lines`: every piece that had a newline after it loses
one trailing carriage return; the final piece is dropped when empty (the
final line ending is optional) and otherwise kept verbatim. -/
def linesFinish : List Str → List Str
  | [] => []
  | p :: ps =>
    if ps.isEmpty then (if p.isEmpty then [] else [p])
    else stripCr p :: linesFinish ps

/-- Rust `str::lines`, composed from the split and the finishing pass. -/
def rustLines (s : Str) : List Str := linesFinish (splitNl s)

/-- Rust `str::trim_start` (drop leading whitespace). -/
def rustTrimStart (s : Str) : Str := s.dropWhile rustIsWhitespace

/-- Rust `str::trim_end` (drop trailing whitespace). -/
def rustTrimEnd (s : Str) : Str := (s.reverse.dropWhile rustIsWhitespace).reverse

/-- Rust `str::trim`. -/
def rustTrim (s : Str) : Str := rustTrimEnd (rustTrimStart s)

/-- Accumulator pass of Rust `str::split_whitespace`; `acc` holds the
current token reversed. -/
def splitWsGo : Str → Str → List Str
  | [], acc => if acc.isEmpty then [] else [acc.reverse]
  | c :: s, acc =>
    if rustIsWhitespace c then
      if acc.isEmpty then splitWsGo s [] else acc.reverse :: splitWsGo s []
    else splitWsGo s (c :: acc)

/-- Rust `str::split_whitespace`: maximal runs of non-whitespace characters,
with no empty tokens. -/
def splitWhitespace (s : Str) : List Str := splitWsGo s []

/-- First index satisfying a predicate, as Rust `Iterator::position`. -/
def position (p : α → Bool) : List α → Option Nat
  | [] => none
  | x :: xs => if p x then some 0 else (position p xs).map (· + 1)

/-- The `SENTINEL_START` constant of `src/hosts/parser.rs`. -/
def SENTINEL_START : Str :=
  "# portmap-start (DO NOT EDIT - managed by portmap)".toList

/-- The `SENTINEL_END` constant of `src/hosts/parser.rs`. -/
def SENTINEL_END : Str := "# portmap-end".toList

/-- The `HostEntry` struct of `src/hosts/parser.rs`. -/
structure HostEntry where
  ip : Str
  domain : Str
deriving DecidableEq

/-- The `HostsFile` struct of `src/hosts/parser.rs`. -/
structure HostsFile where
  before : List Str
  entries : List HostEntry
  after : List Str
deriving DecidableEq

/-- Locate the sentinel block: the first line whose trimmed text equals the
start marker and the first line whose trimmed text equals the end marker,
provided the former strictly precedes the latter.  This is the
`(start_idx, end_idx)` match scrutinee of `HostsFile::parse`. -/
def sentinelSpan (lines : List Str) : Option (Nat × Nat) :=
  match position (fun l => rustTrim l == SENTINEL_START) lines,
        position (fun l => rustTrim l == SENTINEL_END) lines with
  | some s, some e => if s < e then some (s, e) else none
  | _, _ => none

/-- Parse one line inside the sentinel block, as the loop body of
`HostsFile::parse`: blank and `#`-prefixed lines are skipped, other lines
are split on whitespace into ip and domain, lines with fewer than two
tokens are skipped. -/
def parseBlockLine (line : Str) : Option HostEntry :=
  let trimmed := rustTrim line
  if trimmed.isEmpty then none
  else if trimmed.head? = some '#' then none
  else
    match splitWhitespace trimmed with
    | ip :: domain :: _ => some ⟨ip, domain⟩
    | _ => none

/-- Parse every line of the sentinel block. -/
def parseEntries (ls : List Str) : List HostEntry := ls.filterMap parseBlockLine

/-- Structure a list of lines, as the body of `HostsFile::parse` after the
`content.lines()` call. -/
def HostsFile.parseLines (lines : List Str) : HostsFile :=
  match sentinelSpan lines with
  | some (s, e) =>
    { before := lines.take s
      entries := parseEntries ((lines.drop (s + 1)).take (e - s - 1))
      after := lines.drop (e + 1) }
  | none => { before := lines, entries := [], after := [] }

/-- The `HostsFile::parse` function of `src/hosts/parser.rs`. -/
def HostsFile.parse (content : Str) : HostsFile :=
  HostsFile.parseLines (rustLines content)

/-- One serialized entry line, `format!("{}\t{}", entry.ip, entry.domain)`. -/
def entryLine (e : HostEntry) : Str := e.ip ++ '\t' :: e.domain

/-- The lines emitted by `HostsFile::serialize`, in order: `before`
verbatim, then (only when `entries` is non-empty) the start marker, one
entry line per entry, the end marker, then `after` verbatim. -/
def HostsFile.serializeLines (h : HostsFile) : List Str :=
  h.before ++
    (if h.entries.isEmpty then []
     else SENTINEL_START :: h.entries.map entryLine ++ [SENTINEL_END]) ++
    h.after

/-- Append one newline, as each `result.push('\n')` of `serialize`. -/
def nlTerm (l : Str) : Str := l ++ ['\n']

/-- Concatenate newline-terminated lines. -/
def joinLines (ls : List Str) : Str := (ls.map nlTerm).flatten

/-- The `HostsFile::serialize` function of `src/hosts/parser.rs`. -/
def HostsFile.serialize (h : HostsFile) : Str := joinLines h.serializeLines

/-- The `HostsFile::add_entry` function: no mutation and `false` when an
entry with the domain already exists, otherwise append and `true`. -/
def HostsFile.add_entry (h : HostsFile) (domain ip : Str) : HostsFile × Bool :=
  if h.entries.any (fun e => e.domain == domain) then (h, false)
  else ({ h with entries := h.entries ++ [⟨ip, domain⟩] }, true)

/-- The `HostsFile::remove_entry` function: retain entries with a different
domain, report whether the list shrank. -/
def HostsFile.remove_entry (h : HostsFile) (domain : Str) : HostsFile × Bool :=
  let kept := h.entries.filter (fun e => ! (e.domain == domain))
  ({ h with entries := kept }, decide (kept.length < h.entries.length))

/-- The `HostsFile::remove_all` function: clear `entries`. -/
def HostsFile.remove_all (h : HostsFile) : HostsFile := { h with entries := [] }

/-- The content-level transform shared by `HostsManager::restore_all` and
`sync_cleanup` in `src/hosts/manager.rs`: parse the file content, clear all
managed entries, serialize. -/
def cleanupTransform (content : Str) : Str :=
  ((HostsFile.parse content).remove_all).serialize

/-! ## Forwarding handler (`src/proxy/handler.rs`) -/

/-- The `MappingStatus` enum of `src/app.rs`. -/
inductive MappingStatus
  | active
  | portUnreachable
  | unknown
deriving DecidableEq

/-- The `Mapping` struct of `src/app.rs`; the port is a `u16`. -/
structure Mapping where
  domain : Str
  port : Nat
  status : MappingStatus
deriving DecidableEq

/-- A header value as the handler sees it: `some s` when
`HeaderValue::to_str` succeeds with `s`, `none` when the raw bytes cannot
be read as a string. -/
abbrev HVal := Option Str

/-- An inbound request, restricted to what `handle_request` inspects:
its header list (names as received, values as `HVal`), method, the
`path_and_query` component of its URI, and an opaque body identity. -/
structure Req where
  headers : List (Str × HVal)
  method : Str
  pathAndQuery : Option Str
  bodyId : Nat

/-- The request the handler hands to the upstream client. -/
structure UpstreamReq where
  method : Str
  uri : Str
  headers : List (Str × HVal)
  bodyId : Nat
deriving DecidableEq

/-- An upstream response: status, headers and an opaque body identity. -/
structure UpstreamResp where
  status : Nat
  headers : List (Str × HVal)
  bodyId : Nat
deriving DecidableEq

/-- Outcome of the single `client.request` call: a response, or a
connection error carrying its display text. -/
inductive UpstreamResult
  | ok (resp : UpstreamResp)
  | err (msg : Str)
deriving DecidableEq

/-- The environment the handler runs against: whether a candidate URI
string parses as a `hyper::Uri`, and what the upstream client returns. -/
structure Env where
  uriOk : Str → Bool
  upstream : UpstreamReq → UpstreamResult

/-- Body of a handler response: a literal error text, or the upstream
body relayed through. -/
inductive RespBody
  | text (s : Str)
  | stream (bodyId : Nat)
deriving DecidableEq

/-- The response returned to the original client. -/
structure Resp where
  status : Nat
  headers : List (Str × HVal)
  body : RespBody
deriving DecidableEq

/-- ASCII fragment of Rust `str::to_lowercase`, per character.  The handler
only ever compares ASCII header names and ASCII domain names, on which the
full Unicode mapping agrees with this one. -/
def rustToLower (c : Char) : Char :=
  if 'A' ≤ c ∧ c ≤ 'Z' then Char.ofNat (c.toNat + 32) else c

/-- Rust `str::to_lowercase` on the ASCII range. -/
def rustLowercase (s : Str) : Str := s.map rustToLower

/-- The normalized name of the `Host` header. -/
def hostHeaderName : Str := "host".toList

/-- The raw `Host` header lookup, `req.headers().get(hyper::header::HOST)`:
the first header whose name normalizes to `host`. -/
def hostHeaderRaw (req : Req) : Option HVal :=
  (req.headers.find? (fun pr => rustLowercase pr.1 == hostHeaderName)).map
    (fun pr => pr.2)

/-- The `Host` header value as a string, after `and_then(|v| v.to_str().ok())`. -/
def hostHeaderStr (req : Req) : Option Str := (hostHeaderRaw req).bind id

/-- Everything before the first colon, `h.split(':').next().unwrap_or(h)`. -/
def splitColonFirst (h : Str) : Str := h.takeWhile (fun c => c ≠ ':')

/-- The lookup key derived from the request, as computed at the top of
`handle_request`: take the `Host` header, strip everything from the first
colon, lowercase. -/
def hostKeyOf (req : Req) : Option Str :=
  (hostHeaderStr req).map (fun h => rustLowercase (splitColonFirst h))

/-- The mapping lookup, `mappings.iter().find(|m| m.domain == host)`. -/
def mappingFor (mappings : List Mapping) (host : Str) : Option Mapping :=
  mappings.find? (fun m => m.domain == host)

/-- The `HOP_BY_HOP` constant of `src/proxy/handler.rs`. -/
def HOP_BY_HOP : List Str :=
  ["connection".toList, "keep-alive".toList, "proxy-authenticate".toList,
   "proxy-authorization".toList, "te".toList, "trailers".toList,
   "transfer-encoding".toList, "upgrade".toList]

/-- The per-header test applied in both copying loops:
`HOP_BY_HOP.contains(&key.as_str().to_lowercase())`. -/
def isHopByHop (name : Str) : Bool := HOP_BY_HOP.contains (rustLowercase name)

/-- Headers surviving a copying loop of `handle_request`. -/
def hopFilter (hs : List (Str × HVal)) : List (Str × HVal) :=
  hs.filter (fun pr => ! isHopByHop pr.1)

/-- Decimal representation of the target port, Rust `u16` `Display`. -/
def natRepr (n : Nat) : Str := Nat.toDigits 10 n

/-- The fixed scheme-and-authority text of the forwarding URI. -/
def uriBase : Str := "http://127.0.0.1:".toList

/-- The `path_and_query` portion used in the forwarding URI, with the
`unwrap_or("/")` default. -/
def pathOrSlash (req : Req) : Str := req.pathAndQuery.getD ['/']

/-- The forwarding URI string,
`format!("http://127.0.0.1:{}{}", port, path_and_query)`. -/
def upstreamUriStr (port : Nat) (req : Req) : Str :=
  uriBase ++ natRepr port ++ pathOrSlash req

/-- The forwarded request built by `handle_request`: original method and
body, forwarding URI, headers that pass the hop-by-hop filter. -/
def forwardedReq (req : Req) (m : Mapping) : UpstreamReq :=
  { method := req.method
    uri := upstreamUriStr m.port req
    headers := hopFilter req.headers
    bodyId := req.bodyId }

/-- The body text of the 400 response for a missing `Host` header. -/
def missingHostMsg : Str := "Missing Host header".toList

/-- The body text of the 404 response,
`format!("No mapping found for host: {}", host)`. -/
def noMappingMsg (host : Str) : Str :=
  "No mapping found for host: ".toList ++ host

/-- The body text of the 400 response for an unparseable URI. -/
def invalidUriMsg : Str := "Invalid URI".toList

/-- The body text of the 502 response,
`format!("Failed to connect to 127.0.0.1:{} — {}", port, e)`. -/
def badGatewayMsg (port : Nat) (e : Str) : Str :=
  "Failed to connect to 127.0.0.1:".toList ++ natRepr port ++
    " — ".toList ++ e

/-- The `handle_request` function of `src/proxy/handler.rs`, with the
upstream client and URI parsing supplied by `env`.  Besides the response
it returns the list of requests issued upstream (in the code: the single
`client.request(forwarded_req)` call, when reached). -/
def handle_request (req : Req) (mappings : List Mapping) (env : Env) :
    Resp × List UpstreamReq :=
  match hostKeyOf req with
  | none => (⟨400, [], .text missingHostMsg⟩, [])
  | some host =>
    match mappingFor mappings host with
    | none => (⟨404, [], .text (noMappingMsg host)⟩, [])
    | some m =>
      if env.uriOk (upstreamUriStr m.port req) then
        let freq := forwardedReq req m
        match env.upstream freq with
        | .ok resp =>
          (⟨resp.status, hopFilter resp.headers, .stream resp.bodyId⟩, [freq])
        | .err e => (⟨502, [], .text (badGatewayMsg m.port e)⟩, [freq])
      else (⟨400, [], .text invalidUriMsg⟩, [])

/-! ## Line-level lemmas -/

theorem splitNl_ne_nil (s : Str) : splitNl s ≠ [] := by
  induction s with
  | nil => simp [splitNl]
  | cons c rest ih =>
    simp only [splitNl]
    split
    · simp
    · split
      · simp
      · simp

theorem splitNl_append_nl (l rest : Str) (h : '\n' ∉ l) :
    splitNl (l ++ '\n' :: rest) = l :: splitNl rest := by
  induction l with
  | nil => simp [splitNl]
  | cons c l ih =>
    have hc : ¬ (c = '\n') := by
      intro hc
      exact h (hc ▸ List.mem_cons_self c l)
    have hl : '\n' ∉ l := fun hm => h (List.mem_cons_of_mem _ hm)
    simp only [List.cons_append, splitNl, if_neg hc]
    rw [show l.append ('\n' :: rest) = l ++ '\n' :: rest from rfl, ih hl]

theorem mem_splitNl_no_nl (s : Str) :
    ∀ p ∈ splitNl s, '\n' ∉ p := by
  induction s with
  | nil =>
    intro p hp
    simp [splitNl] at hp
    simp [hp]
  | cons c rest ih =>
    intro p hp
    simp only [splitNl] at hp
    by_cases hc : c = '\n'
    · rw [if_pos hc] at hp
      rcases List.mem_cons.mp hp with h1 | h1
      · simp [h1]
      · exact ih p h1
    · rw [if_neg hc] at hp
      cases heq : splitNl rest with
      | nil => exact absurd heq (splitNl_ne_nil rest)
      | cons t ts =>
        rw [heq] at hp
        rcases List.mem_cons.mp hp with h1 | h1
        · subst h1
          intro hm
          rcases List.mem_cons.mp hm with h2 | h2
          · exact hc h2.symm
          · exact ih t (heq ▸ List.mem_cons_self t ts) h2
        · exact ih p (heq ▸ List.mem_cons_of_mem t h1)

theorem mem_linesFinish (ps : List Str) (l : Str) (hl : l ∈ linesFinish ps) :
    ∃ p ∈ ps, l = p ∨ l = stripCr p := by
  induction ps with
  | nil => simp [linesFinish] at hl
  | cons p ps ih =>
    simp only [linesFinish] at hl
    by_cases hps : ps.isEmpty
    · rw [if_pos hps] at hl
      by_cases hp : p.isEmpty
      · rw [if_pos hp] at hl
        simp at hl
      · rw [if_neg hp] at hl
        simp at hl
        exact ⟨p, List.mem_cons_self p ps, Or.inl hl⟩
    · rw [if_neg hps] at hl
      rcases List.mem_cons.mp hl with h1 | h1
      · exact ⟨p, List.mem_cons_self p ps, Or.inr h1⟩
      · obtain ⟨q, hq, hcase⟩ := ih h1
        exact ⟨q, List.mem_cons_of_mem p hq, hcase⟩

theorem stripCr_no_nl (p : Str) (h : '\n' ∉ p) : '\n' ∉ stripCr p := by
  unfold stripCr
  split
  · intro hm
    exact h ((List.dropLast_sublist p).subset hm)
  · exact h

theorem mem_rustLines_no_nl (s : Str) (l : Str) (hl : l ∈ rustLines s) :
    '\n' ∉ l := by
  obtain ⟨p, hp, hcase⟩ := mem_linesFinish _ _ hl
  have hnl := mem_splitNl_no_nl s p hp
  rcases hcase with rfl | rfl
  · exact hnl
  · exact stripCr_no_nl p hnl

theorem joinLines_cons (l : Str) (ls : List Str) :
    joinLines (l :: ls) = l ++ '\n' :: joinLines ls := by
  simp [joinLines, nlTerm]

theorem rustLines_joinLines (ls : List Str)
    (h : ∀ l ∈ ls, '\n' ∉ l ∧ l.getLast? ≠ some '\r') :
    rustLines (joinLines ls) = ls := by
  induction ls with
  | nil => rfl
  | cons l ls ih =>
    obtain ⟨hnl, hcr⟩ := h l (List.mem_cons_self l ls)
    rw [joinLines_cons]
    unfold rustLines
    rw [splitNl_append_nl l _ hnl]
    have hne : (splitNl (joinLines ls)).isEmpty = false := by
      cases heq : splitNl (joinLines ls) with
      | nil => exact absurd heq (splitNl_ne_nil _)
      | cons t ts => rfl
    simp only [linesFinish, hne, Bool.false_eq_true, if_false]
    rw [show stripCr l = l from by unfold stripCr; rw [if_neg hcr]]
    have := ih (fun x hx => h x (List.mem_cons_of_mem l hx))
    unfold rustLines at this
    rw [this]

/-! ## Position, trim and whitespace-split lemmas -/

theorem position_eq_none (p : α → Bool) (xs : List α)
    (h : ∀ x ∈ xs, p x = false) : position p xs = none := by
  induction xs with
  | nil => rfl
  | cons x xs ih =>
    simp only [position, h x (List.mem_cons_self x xs), Bool.false_eq_true,
      if_false, ih (fun y hy => h y (List.mem_cons_of_mem x hy)), Option.map_none']

theorem position_append_left_none (p : α → Bool) (xs ys : List α)
    (h : ∀ x ∈ xs, p x = false) :
    position p (xs ++ ys) = (position p ys).map (· + xs.length) := by
  induction xs with
  | nil =>
    simp only [List.nil_append, List.length_nil]
    cases position p ys <;> simp
  | cons x xs ih =>
    simp only [List.cons_append, position, h x (List.mem_cons_self x xs),
      Bool.false_eq_true, if_false]
    rw [show xs.append ys = xs ++ ys from rfl,
      ih (fun y hy => h y (List.mem_cons_of_mem x hy))]
    cases position p ys with
    | none => rfl
    | some n =>
      simp only [Option.map_some', List.length_cons, Option.some.injEq]
      omega

theorem position_first (p : α → Bool) (xs : List α) (y : α) (ys : List α)
    (hxs : ∀ x ∈ xs, p x = false) (hy : p y = true) :
    position p (xs ++ y :: ys) = some xs.length := by
  rw [position_append_left_none p xs _ hxs]
  simp [position, hy]

theorem dropWhile_eq_self_of_head (p : α → Bool) (l : List α)
    (h : ∀ c, l.head? = some c → p c = false) : l.dropWhile p = l := by
  cases l with
  | nil => rfl
  | cons c t => simp [List.dropWhile_cons, h c rfl]

theorem rustTrim_eq_self (s : Str)
    (h1 : ∀ c, s.head? = some c → rustIsWhitespace c = false)
    (h2 : ∀ c, s.getLast? = some c → rustIsWhitespace c = false) :
    rustTrim s = s := by
  unfold rustTrim rustTrimStart rustTrimEnd
  rw [dropWhile_eq_self_of_head _ _ h1]
  rw [dropWhile_eq_self_of_head _ _ (fun c hc =>
    h2 c (by rwa [List.head?_reverse] at hc))]
  exact s.reverse_reverse

theorem splitWsGo_nonws (xs rest acc : Str)
    (h : ∀ c ∈ xs, rustIsWhitespace c = false) :
    splitWsGo (xs ++ rest) acc = splitWsGo rest (xs.reverse ++ acc) := by
  induction xs generalizing acc with
  | nil => simp
  | cons c xs ih =>
    simp only [List.cons_append, splitWsGo, h c (List.mem_cons_self c xs),
      Bool.false_eq_true, if_false]
    rw [show xs.append rest = xs ++ rest from rfl,
      ih (c :: acc) (fun d hd => h d (List.mem_cons_of_mem c hd))]
    simp [List.append_assoc]

theorem splitWsGo_token (xs : Str) (hxs : xs ≠ [])
    (h : ∀ c ∈ xs, rustIsWhitespace c = false) :
    splitWsGo xs [] = [xs] := by
  have := splitWsGo_nonws xs [] [] h
  simp only [List.append_nil] at this
  rw [this]
  have hne : xs.reverse.isEmpty = false := by
    simp [List.isEmpty_iff, hxs]
  simp [splitWsGo, hne]

theorem splitWhitespace_two_tokens (ip domain : Str) (hip : ip ≠ [])
    (hd : domain ≠ [])
    (h1 : ∀ c ∈ ip, rustIsWhitespace c = false)
    (h2 : ∀ c ∈ domain, rustIsWhitespace c = false) :
    splitWhitespace (ip ++ '\t' :: domain) = [ip, domain] := by
  unfold splitWhitespace
  rw [splitWsGo_nonws ip _ [] h1]
  have htab : rustIsWhitespace '\t' = true := by decide
  have hne : ip.reverse.isEmpty = false := by simp [List.isEmpty_iff, hip]
  simp only [List.append_nil, splitWsGo, htab, if_true, hne,
    Bool.false_eq_true, if_false, List.reverse_reverse]
  rw [splitWsGo_token domain hd h2]

/-! ## Entry-line and marker lemmas -/

/-- Well-formedness of a managed entry: non-empty whitespace-free ip and
domain, with the ip not starting with a comment character.  Entries
created by the application (`127.0.0.1` plus a validated domain) satisfy
this. -/
def goodEntry (e : HostEntry) : Prop :=
  e.ip ≠ [] ∧ e.domain ≠ [] ∧ (∀ c ∈ e.ip, rustIsWhitespace c = false) ∧
    (∀ c ∈ e.domain, rustIsWhitespace c = false) ∧ e.ip.head? ≠ some '#'

instance : DecidablePred goodEntry := fun e => by
  unfold goodEntry
  infer_instance

theorem start_marker_trim : rustTrim SENTINEL_START = SENTINEL_START := by decide

theorem end_marker_trim : rustTrim SENTINEL_END = SENTINEL_END := by decide

theorem start_marker_clean :
    '\n' ∉ SENTINEL_START ∧ SENTINEL_START.getLast? ≠ some '\r' := by decide

theorem end_marker_clean :
    '\n' ∉ SENTINEL_END ∧ SENTINEL_END.getLast? ≠ some '\r' := by decide

theorem start_marker_head : SENTINEL_START.head? = some '#' := by decide

theorem end_marker_head : SENTINEL_END.head? = some '#' := by decide

theorem entryLine_head (e : HostEntry) (he : goodEntry e) :
    (entryLine e).head? ≠ some '#' := by
  obtain ⟨hip, _, _, _, hhash⟩ := he
  unfold entryLine
  rw [List.head?_append_of_ne_nil e.ip hip]
  exact hhash

theorem entryLine_getLast? (e : HostEntry) (he : goodEntry e) :
    (entryLine e).getLast? = e.domain.getLast? := by
  obtain ⟨_, hd, _, _, _⟩ := he
  unfold entryLine
  rw [show e.ip ++ '\t' :: e.domain = (e.ip ++ ['\t']) ++ e.domain from by simp]
  exact List.getLast?_append_of_ne_nil _ hd

theorem entryLine_clean (e : HostEntry) (he : goodEntry e) :
    '\n' ∉ entryLine e ∧ (entryLine e).getLast? ≠ some '\r' := by
  obtain ⟨hip, hd, h1, h2, hhash⟩ := he
  constructor
  · intro hm
    unfold entryLine at hm
    rcases List.mem_append.mp hm with hm | hm
    · have := h1 _ hm
      simp [rustIsWhitespace] at this
    · rcases List.mem_cons.mp hm with hm | hm
      · exact absurd hm.symm (by decide)
      · have := h2 _ hm
        simp [rustIsWhitespace] at this
  · rw [entryLine_getLast? e ⟨hip, hd, h1, h2, hhash⟩]
    intro hc
    have := h2 _ (List.mem_of_mem_getLast? hc)
    simp [rustIsWhitespace] at this

theorem entryLine_trim (e : HostEntry) (he : goodEntry e) :
    rustTrim (entryLine e) = entryLine e := by
  obtain ⟨hip, hd, h1, h2, hhash⟩ := he
  apply rustTrim_eq_self
  · intro c hc
    unfold entryLine at hc
    rw [List.head?_append_of_ne_nil e.ip hip] at hc
    exact h1 c (List.mem_of_mem_head? hc)
  · intro c hc
    rw [entryLine_getLast? e ⟨hip, hd, h1, h2, hhash⟩] at hc
    exact h2 c (List.mem_of_mem_getLast? hc)

theorem entryLine_trim_ne_start (e : HostEntry) (he : goodEntry e) :
    (rustTrim (entryLine e) == SENTINEL_START) = false := by
  rw [entryLine_trim e he]
  apply beq_eq_false_iff_ne.mpr
  intro hc
  exact entryLine_head e he (hc ▸ start_marker_head)

theorem entryLine_trim_ne_end (e : HostEntry) (he : goodEntry e) :
    (rustTrim (entryLine e) == SENTINEL_END) = false := by
  rw [entryLine_trim e he]
  apply beq_eq_false_iff_ne.mpr
  intro hc
  exact entryLine_head e he (hc ▸ end_marker_head)

theorem parseBlockLine_entryLine (e : HostEntry) (he : goodEntry e) :
    parseBlockLine (entryLine e) = some e := by
  obtain ⟨ip, domain⟩ := e
  obtain ⟨hip, hd, h1, h2, hhash⟩ := he
  unfold parseBlockLine
  rw [entryLine_trim ⟨ip, domain⟩ ⟨hip, hd, h1, h2, hhash⟩]
  have hne : (entryLine ⟨ip, domain⟩).isEmpty = false := by
    unfold entryLine
    simp
  simp only [hne, Bool.false_eq_true, if_false,
    if_neg (entryLine_head ⟨ip, domain⟩ ⟨hip, hd, h1, h2, hhash⟩)]
  unfold entryLine
  rw [splitWhitespace_two_tokens ip domain hip hd h1 h2]

theorem parseEntries_map_entryLine (es : List HostEntry)
    (h : ∀ e ∈ es, goodEntry e) :
    parseEntries (es.map entryLine) = es := by
  induction es with
  | nil => rfl
  | cons e es ih =>
    simp only [List.map_cons, parseEntries, List.filterMap_cons,
      parseBlockLine_entryLine e (h e (List.mem_cons_self e es))]
    have := ih (fun x hx => h x (List.mem_cons_of_mem e hx))
    unfold parseEntries at this
    rw [this]

/-! ## Round-trip of the sentinel codec -/

/-- A line the line codec reproduces byte-for-byte: no embedded newline, no
trailing carriage return. -/
def lineClean (l : Str) : Prop := '\n' ∉ l ∧ l.getLast? ≠ some '\r'

/-- A line whose trimmed text is neither sentinel marker. -/
def lineNonMarker (l : Str) : Prop :=
  rustTrim l ≠ SENTINEL_START ∧ rustTrim l ≠ SENTINEL_END

instance : DecidablePred lineClean := fun l => by
  unfold lineClean
  infer_instance

instance : DecidablePred lineNonMarker := fun l => by
  unfold lineNonMarker
  infer_instance

theorem serializeLines_nonempty (B : List Str) (es : List HostEntry)
    (A : List Str) (hne : es ≠ []) :
    HostsFile.serializeLines ⟨B, es, A⟩ =
      B ++ SENTINEL_START :: (es.map entryLine ++ SENTINEL_END :: A) := by
  have hEs : es.isEmpty = false := by simp [List.isEmpty_iff, hne]
  unfold HostsFile.serializeLines
  simp only [hEs, Bool.false_eq_true, if_false]
  simp [List.append_assoc]

theorem rustLines_serialize_nonempty (B : List Str) (es : List HostEntry)
    (A : List Str) (hne : es ≠ [])
    (hb : ∀ l ∈ B, lineClean l) (ha : ∀ l ∈ A, lineClean l)
    (he : ∀ e ∈ es, goodEntry e) :
    rustLines (HostsFile.serialize ⟨B, es, A⟩) =
      B ++ SENTINEL_START :: (es.map entryLine ++ SENTINEL_END :: A) := by
  unfold HostsFile.serialize
  rw [serializeLines_nonempty B es A hne]
  apply rustLines_joinLines
  intro l hl
  rcases List.mem_append.mp hl with hl | hl
  · exact hb l hl
  · rcases List.mem_cons.mp hl with rfl | hl
    · exact start_marker_clean
    · rcases List.mem_append.mp hl with hl | hl
      · obtain ⟨e, hee, rfl⟩ := List.mem_map.mp hl
        exact entryLine_clean e (he e hee)
      · rcases List.mem_cons.mp hl with rfl | hl
        · exact end_marker_clean
        · exact ha l hl

theorem sentinelSpan_serialized (B : List Str) (es : List HostEntry)
    (A : List Str)
    (hb : ∀ l ∈ B, lineNonMarker l) (he : ∀ e ∈ es, goodEntry e) :
    sentinelSpan (B ++ SENTINEL_START :: (es.map entryLine ++ SENTINEL_END :: A)) =
      some (B.length, B.length + (es.length + 1)) := by
  have hposS : position (fun l => rustTrim l == SENTINEL_START)
      (B ++ SENTINEL_START :: (es.map entryLine ++ SENTINEL_END :: A)) =
      some B.length := by
    apply position_first
    · intro x hx
      exact beq_eq_false_iff_ne.mpr (hb x hx).1
    · rw [start_marker_trim]
      exact beq_self_eq_true SENTINEL_START
  have hregroup : B ++ SENTINEL_START :: (es.map entryLine ++ SENTINEL_END :: A) =
      (B ++ SENTINEL_START :: es.map entryLine) ++ SENTINEL_END :: A := by
    simp [List.append_assoc]
  have hposE : position (fun l => rustTrim l == SENTINEL_END)
      (B ++ SENTINEL_START :: (es.map entryLine ++ SENTINEL_END :: A)) =
      some (B.length + (es.length + 1)) := by
    rw [hregroup]
    have := position_first (fun l => rustTrim l == SENTINEL_END)
      (B ++ SENTINEL_START :: es.map entryLine) SENTINEL_END (A)
      (fun x hx => by
        rcases List.mem_append.mp hx with hx | hx
        · exact beq_eq_false_iff_ne.mpr (hb x hx).2
        · rcases List.mem_cons.mp hx with rfl | hx
          · show (rustTrim SENTINEL_START == SENTINEL_END) = false
            rw [start_marker_trim]
            exact beq_eq_false_iff_ne.mpr (by decide)
          · obtain ⟨e, hee, rfl⟩ := List.mem_map.mp hx
            exact entryLine_trim_ne_end e (he e hee))
      (by show (rustTrim SENTINEL_END == SENTINEL_END) = true
          rw [end_marker_trim]
          exact beq_self_eq_true SENTINEL_END)
    rw [this]
    congr 1
    simp only [List.length_append, List.length_cons, List.length_map]
  unfold sentinelSpan
  rw [hposS, hposE]
  show (if B.length < B.length + (es.length + 1) then
    some (B.length, B.length + (es.length + 1)) else none) = _
  rw [if_pos (by omega)]

theorem parse_serialize_nonempty (B : List Str) (es : List HostEntry)
    (A : List Str) (hne : es ≠ [])
    (hb : ∀ l ∈ B, lineClean l ∧ lineNonMarker l)
    (ha : ∀ l ∈ A, lineClean l)
    (he : ∀ e ∈ es, goodEntry e) :
    HostsFile.parse (HostsFile.serialize ⟨B, es, A⟩) = ⟨B, es, A⟩ := by
  unfold HostsFile.parse
  rw [rustLines_serialize_nonempty B es A hne (fun l hl => (hb l hl).1) ha he]
  unfold HostsFile.parseLines
  rw [sentinelSpan_serialized B es A (fun l hl => (hb l hl).2) he]
  simp only [HostsFile.mk.injEq]
  refine ⟨?_, ?_, ?_⟩
  · exact List.take_left B _
  · have harith : B.length + (es.length + 1) - B.length - 1 = es.length := by omega
    rw [harith]
    have hL2 : B ++ SENTINEL_START :: (es.map entryLine ++ SENTINEL_END :: A) =
        (B ++ [SENTINEL_START]) ++ (es.map entryLine ++ SENTINEL_END :: A) := by
      simp
    rw [hL2, show B.length + 1 = (B ++ [SENTINEL_START]).length from by simp,
      List.drop_left]
    rw [show es.length = (es.map entryLine).length from (List.length_map es entryLine).symm,
      List.take_left]
    exact parseEntries_map_entryLine es he
  · have hL3 : B ++ SENTINEL_START :: (es.map entryLine ++ SENTINEL_END :: A) =
        (B ++ SENTINEL_START :: (es.map entryLine ++ [SENTINEL_END])) ++ A := by
      simp [List.append_assoc]
    rw [hL3, show B.length + (es.length + 1) + 1 =
      (B ++ SENTINEL_START :: (es.map entryLine ++ [SENTINEL_END])).length from by
        simp [List.length_append, List.length_map]
        omega,
      List.drop_left]

theorem parse_serialize_empty (B : List Str)
    (hb : ∀ l ∈ B, lineClean l ∧ lineNonMarker l) :
    HostsFile.parse (HostsFile.serialize ⟨B, [], []⟩) = ⟨B, [], []⟩ := by
  unfold HostsFile.parse HostsFile.serialize
  have hlines : HostsFile.serializeLines ⟨B, ([] : List HostEntry), ([] : List Str)⟩ = B := by
    unfold HostsFile.serializeLines
    simp
  rw [hlines, rustLines_joinLines B (fun l hl => (hb l hl).1)]
  unfold HostsFile.parseLines
  have hnone : sentinelSpan B = none := by
    unfold sentinelSpan
    rw [position_eq_none _ B (fun l hl => beq_eq_false_iff_ne.mpr (hb l hl).2.1),
      position_eq_none _ B (fun l hl => beq_eq_false_iff_ne.mpr (hb l hl).2.2)]
  rw [hnone]

theorem hostsfile_roundtrip (h : HostsFile)
    (hb : ∀ l ∈ h.before, lineClean l ∧ lineNonMarker l)
    (ha : ∀ l ∈ h.after, lineClean l)
    (he : ∀ e ∈ h.entries, goodEntry e)
    (hea : h.entries = [] → h.after = []) :
    HostsFile.parse (HostsFile.serialize h) = h := by
  obtain ⟨B, es, A⟩ := h
  by_cases hne : es = []
  · subst hne
    have hA : A = [] := hea rfl
    subst hA
    exact parse_serialize_empty B hb
  · exact parse_serialize_nonempty B es A hne hb ha he

/-! ## Claim C1 -/

/-- Content whose sentinel block is empty but which has a line after the
end marker; its parse is a `HostsFile` with empty `entries` and non-empty
`after`. -/
def c1content : Str :=
  ("# portmap-start (DO NOT EDIT - managed by portmap)\n# portmap-end\nx\n").toList

/-- C1 counterexample: the round-trip contract fails as universally stated.
For the (parse-reachable) `HostsFile` with empty `entries` and `after`
equal to `[x]`, `serialize` emits no markers, so re-parsing moves the
`after` line into `before`: `after` is not preserved byte-for-byte. -/
theorem c1_counterexample :
    (HostsFile.parse (HostsFile.serialize (HostsFile.parse c1content))).after ≠
      (HostsFile.parse c1content).after := by decide

/-- C1 (amended): `parse(serialize(h))` reproduces `h.entries` exactly and
preserves `before`/`after` byte-for-byte, provided the lines of `before`
contain no newline, do not end in a carriage return and do not trim to a
sentinel marker, the lines of `after` contain no newline and do not end in
a carriage return, every entry has a non-empty whitespace-free ip not
starting with the comment character and a non-empty whitespace-free
domain, and `after` is empty whenever `entries` is (when `entries` is
empty `serialize` emits no markers, so a non-empty `after` cannot be
recovered). -/
theorem c1_roundtrip (h : HostsFile)
    (hb : ∀ l ∈ h.before, lineClean l ∧ lineNonMarker l)
    (ha : ∀ l ∈ h.after, lineClean l)
    (he : ∀ e ∈ h.entries, goodEntry e)
    (hea : h.entries = [] → h.after = []) :
    (HostsFile.parse (HostsFile.serialize h)).entries = h.entries ∧
    (HostsFile.parse (HostsFile.serialize h)).before = h.before ∧
    (HostsFile.parse (HostsFile.serialize h)).after = h.after := by
  rw [hostsfile_roundtrip h hb ha he hea]
  exact ⟨rfl, rfl, rfl⟩

/-- A representative managed hosts file: unmanaged lines around one
managed entry. -/
def c1sample : HostsFile :=
  ⟨["127.0.0.1\tlocalhost".toList],
   [⟨"127.0.0.1".toList, "test.localhost".toList⟩],
   ["::1\tlocalhost".toList]⟩

/-- Witness for `c1_roundtrip` at a concrete managed hosts file. -/
theorem c1_witness :
    (HostsFile.parse (HostsFile.serialize c1sample)).entries = c1sample.entries ∧
    (HostsFile.parse (HostsFile.serialize c1sample)).before = c1sample.before ∧
    (HostsFile.parse (HostsFile.serialize c1sample)).after = c1sample.after :=
  c1_roundtrip c1sample (by decide) (by decide) (by decide) (by decide)

/-! ## Claim C2 -/

theorem parse_before_mem (c : Str) (l : Str)
    (hl : l ∈ (HostsFile.parse c).before) : l ∈ rustLines c := by
  unfold HostsFile.parse HostsFile.parseLines at hl
  cases hsp : sentinelSpan (rustLines c) with
  | none =>
    rw [hsp] at hl
    exact hl
  | some se =>
    obtain ⟨s, e⟩ := se
    rw [hsp] at hl
    exact List.take_subset s (rustLines c) hl

theorem parse_after_mem (c : Str) (l : Str)
    (hl : l ∈ (HostsFile.parse c).after) : l ∈ rustLines c := by
  unfold HostsFile.parse HostsFile.parseLines at hl
  cases hsp : sentinelSpan (rustLines c) with
  | none =>
    rw [hsp] at hl
    exact absurd hl (List.not_mem_nil l)
  | some se =>
    obtain ⟨s, e⟩ := se
    rw [hsp] at hl
    exact List.drop_subset (e + 1) (rustLines c) hl

theorem cleanupTransform_eq (c : Str) :
    cleanupTransform c =
      joinLines ((HostsFile.parse c).before ++ (HostsFile.parse c).after) := by
  unfold cleanupTransform HostsFile.remove_all HostsFile.serialize
    HostsFile.serializeLines
  simp

/-- C2 counterexample: the cleanup transform is not idempotent on every
content.  On `"a\r"` the first pass yields `"a\r\n"` (the bare carriage
return is kept by `lines()`), but the second pass parses that as the line
`"a"` (the carriage return now precedes a newline and is stripped) and
yields `"a\n"`. -/
theorem c2_counterexample :
    cleanupTransform (cleanupTransform ['a', '\r']) ≠
      cleanupTransform ['a', '\r'] := by decide

/-- C2 (amended): the cleanup transform (read, parse, clear all entries,
serialize, write) is idempotent on every content whose unmanaged lines do
not end in a carriage return and do not themselves form a second sentinel
block (no start-marker line preceding an end-marker line outside the first
block). -/
theorem c2_idempotent (c : Str)
    (hcr : ∀ l ∈ (HostsFile.parse c).before ++ (HostsFile.parse c).after,
      l.getLast? ≠ some '\r')
    (hms : sentinelSpan ((HostsFile.parse c).before ++ (HostsFile.parse c).after) =
      none) :
    cleanupTransform (cleanupTransform c) = cleanupTransform c := by
  have hclean : ∀ l ∈ (HostsFile.parse c).before ++ (HostsFile.parse c).after,
      '\n' ∉ l ∧ l.getLast? ≠ some '\r' := by
    intro l hl
    refine ⟨?_, hcr l hl⟩
    rcases List.mem_append.mp hl with h | h
    · exact mem_rustLines_no_nl c l (parse_before_mem c l h)
    · exact mem_rustLines_no_nl c l (parse_after_mem c l h)
  rw [cleanupTransform_eq c]
  generalize hBA : (HostsFile.parse c).before ++ (HostsFile.parse c).after = L
    at hclean hms ⊢
  unfold cleanupTransform HostsFile.parse
  rw [rustLines_joinLines L hclean]
  unfold HostsFile.parseLines
  rw [hms]
  unfold HostsFile.remove_all HostsFile.serialize HostsFile.serializeLines
  simp

/-- A representative hosts-file content for the cleanup witness. -/
def c2sample : Str := ("127.0.0.1\tlocalhost\n::1\tlocalhost\n").toList

/-- Witness for `c2_idempotent` at a concrete content. -/
theorem c2_witness :
    cleanupTransform (cleanupTransform c2sample) = cleanupTransform c2sample :=
  c2_idempotent c2sample (by decide) (by decide)

/-! ## Claim C6 -/

/-- The mutating operations `HostsFile` offers. -/
inductive HostsOp
  | add (domain ip : Str)
  | remove (domain : Str)
  | removeAll

/-- Apply one operation, discarding the reported boolean. -/
def applyOp (h : HostsFile) (op : HostsOp) : HostsFile :=
  match op with
  | .add d ip => (h.add_entry d ip).1
  | .remove d => (h.remove_entry d).1
  | .removeAll => h.remove_all

/-- Apply a sequence of operations in order. -/
def applyOps (h : HostsFile) (ops : List HostsOp) : HostsFile :=
  ops.foldl applyOp h

/-- The domains of the managed entries, in order. -/
def entryDomains (h : HostsFile) : List Str := h.entries.map HostEntry.domain

theorem applyOp_nodup (h : HostsFile) (op : HostsOp)
    (hn : (entryDomains h).Nodup) : (entryDomains (applyOp h op)).Nodup := by
  cases op with
  | add d ip =>
    show (entryDomains (h.add_entry d ip).1).Nodup
    unfold HostsFile.add_entry
    by_cases hany : h.entries.any (fun e => e.domain == d) = true
    · rw [if_pos hany]
      exact hn
    · rw [if_neg hany]
      unfold entryDomains at hn ⊢
      simp only [List.map_append, List.map_cons, List.map_nil]
      rw [List.nodup_append]
      refine ⟨hn, List.nodup_singleton d, ?_⟩
      intro x hx hx2
      simp only [List.mem_singleton] at hx2
      subst hx2
      obtain ⟨e, hee, hde⟩ := List.mem_map.mp hx
      exact hany (List.any_eq_true.mpr ⟨e, hee, beq_iff_eq.mpr hde⟩)
  | remove d =>
    show (entryDomains (h.remove_entry d).1).Nodup
    exact hn.sublist ((List.filter_sublist h.entries).map HostEntry.domain)
  | removeAll =>
    simp [applyOp, HostsFile.remove_all, entryDomains]

theorem applyOps_nodup (h : HostsFile) (ops : List HostsOp)
    (hn : (entryDomains h).Nodup) : (entryDomains (applyOps h ops)).Nodup := by
  induction ops generalizing h with
  | nil => exact hn
  | cons op ops ih => exact ih (applyOp h op) (applyOp_nodup h op hn)

/-- Content whose sentinel block lists the same domain twice. -/
def c6content : Str :=
  ("# portmap-start (DO NOT EDIT - managed by portmap)\n1 d\n2 d\n# portmap-end\n").toList

/-- C6 counterexample: `parse` does not deduplicate domains, so a content
whose managed block lists `d` twice parses to an entries sequence with two
records of domain `d`. -/
theorem c6_counterexample :
    ¬ (entryDomains (HostsFile.parse c6content)).Nodup := by decide

/-- C6 (amended): for every `HostsFile` obtained by `parse` of a content
whose managed block lists no domain twice, and by any subsequent sequence
of add/remove/remove-all operations, the entries sequence never contains
two records with the same domain. -/
theorem c6_nodup (c : Str) (ops : List HostsOp)
    (hn : (entryDomains (HostsFile.parse c)).Nodup) :
    (entryDomains (applyOps (HostsFile.parse c) ops)).Nodup :=
  applyOps_nodup (HostsFile.parse c) ops hn

/-- A content and an operation sequence exercising every operation. -/
def c6wcontent : Str :=
  ("# portmap-start (DO NOT EDIT - managed by portmap)\n127.0.0.1\ta.localhost\n# portmap-end\n").toList

/-- Operation sequence for the C6 witness. -/
def c6wops : List HostsOp :=
  [.add "b.localhost".toList "127.0.0.1".toList,
   .add "a.localhost".toList "127.0.0.1".toList,
   .remove "a.localhost".toList,
   .removeAll,
   .add "c.localhost".toList "127.0.0.1".toList]

/-- Witness for `c6_nodup` at a concrete content and operation sequence. -/
theorem c6_witness :
    (entryDomains (applyOps (HostsFile.parse c6wcontent) c6wops)).Nodup :=
  c6_nodup c6wcontent c6wops (by decide)

/-! ## Claim C7 -/

/-- The marker span as the claim reads it: first line exactly equal to the
start marker, first line exactly equal to the end marker, the former
strictly before the latter. -/
def exactSpan (ls : List Str) : Option (Nat × Nat) :=
  match position (fun l => l == SENTINEL_START) ls,
        position (fun l => l == SENTINEL_END) ls with
  | some s, some e => if s < e then some (s, e) else none
  | _, _ => none

/-- Content whose start-marker line carries a leading space: no line is
exactly the start marker, yet `parse` trims and still finds the block. -/
def c7content : Str :=
  (" # portmap-start (DO NOT EDIT - managed by portmap)\n1 d\n# portmap-end\n").toList

/-- C7 counterexample: the claim's premise (no exactly-equal marker pair in
order) holds for `c7content`, yet `parse` does not place every line into
`before` — it matches markers after trimming and extracts an entry. -/
theorem c7_counterexample :
    exactSpan (rustLines c7content) = none ∧
      (HostsFile.parse c7content).entries ≠ [] := by decide

/-- C7 (amended): marker lines are recognized after trimming whitespace.
For every content with no trimmed-equal start-marker line preceding a
trimmed-equal end-marker line, `parse` places every line into `before` and
returns empty `entries` and `after`. -/
theorem c7_fail_open (c : Str) (h : sentinelSpan (rustLines c) = none) :
    (HostsFile.parse c).before = rustLines c ∧
    (HostsFile.parse c).entries = [] ∧ (HostsFile.parse c).after = [] := by
  unfold HostsFile.parse HostsFile.parseLines
  rw [h]
  exact ⟨rfl, rfl, rfl⟩

/-- Content with only a start marker, the fail-open case of the spec. -/
def c7wcontent : Str :=
  ("127.0.0.1\tlocalhost\n# portmap-start (DO NOT EDIT - managed by portmap)\n").toList

/-- Witness for `c7_fail_open` at a content with an unpaired marker. -/
theorem c7_witness :
    (HostsFile.parse c7wcontent).before = rustLines c7wcontent ∧
    (HostsFile.parse c7wcontent).entries = [] ∧
    (HostsFile.parse c7wcontent).after = [] :=
  c7_fail_open c7wcontent (by decide)

/-! ## Claim C8 -/

/-- A `HostsFile` with empty entries whose `before` already holds a marker
line. -/
def c8bad : HostsFile := ⟨[SENTINEL_START], [], []⟩

/-- C8 counterexample: as universally stated over every `HostsFile`, the
claim fails — with empty entries `serialize` reproduces `before`/`after`
verbatim, so a marker line already sitting there appears in the output.
(Such states are parse-reachable: markers in the wrong order are treated
as unmanaged content.) -/
theorem c8_counterexample :
    c8bad.entries = [] ∧ SENTINEL_START ∈ rustLines c8bad.serialize := by decide

/-- C8 (amended): serializing a `HostsFile` with zero entries emits exactly
the `before` and `after` lines and nothing else; in particular, whenever no
`before`/`after` line is itself a marker line (and the lines are free of
embedded newlines and trailing carriage returns), the output contains
neither sentinel marker line. -/
theorem c8_no_markers (h : HostsFile) (h0 : h.entries = [])
    (hcl : ∀ l ∈ h.before ++ h.after, lineClean l)
    (hnm : ∀ l ∈ h.before ++ h.after, l ≠ SENTINEL_START ∧ l ≠ SENTINEL_END) :
    SENTINEL_START ∉ rustLines h.serialize ∧
      SENTINEL_END ∉ rustLines h.serialize := by
  have hsl : h.serializeLines = h.before ++ h.after := by
    unfold HostsFile.serializeLines
    rw [h0]
    simp
  unfold HostsFile.serialize
  rw [hsl, rustLines_joinLines _ (fun l hl => hcl l hl)]
  constructor
  · intro hm
    exact (hnm _ hm).1 rfl
  · intro hm
    exact (hnm _ hm).2 rfl

/-- An ordinary hosts file with no managed entries. -/
def c8sample : HostsFile :=
  ⟨["127.0.0.1\tlocalhost".toList], [], ["::1\tlocalhost".toList]⟩

/-- Witness for `c8_no_markers` at a concrete empty-entries file. -/
theorem c8_witness :
    SENTINEL_START ∉ rustLines c8sample.serialize ∧
      SENTINEL_END ∉ rustLines c8sample.serialize :=
  c8_no_markers c8sample rfl (by decide) (by decide)

/-! ## Claim C9 -/

/-- Number of entries carrying a given domain. -/
def domainCount (h : HostsFile) (d : Str) : Nat :=
  (h.entries.filter (fun e => e.domain == d)).length

/-- A `HostsFile` already holding two entries for domain `d`
(parse-reachable, since `parse` does not deduplicate). -/
def c9dup : HostsFile :=
  ⟨[], [⟨"1".toList, "d".toList⟩, ⟨"2".toList, "d".toList⟩], []⟩

/-- C9 counterexample: starting from a file already holding two entries for
`d`, both `add_entry` calls refuse (duplicate) and two entries for `d`
remain — not exactly one as the claim states for every `HostsFile`. -/
theorem c9_counterexample :
    domainCount (((c9dup.add_entry "d".toList "9".toList).1.add_entry
      "d".toList "9".toList).1) "d".toList ≠ 1 := by decide

/-- C9 (amended): on every `HostsFile` holding at most one entry for
domain `d`, calling `add_entry(d, ip)` twice leaves exactly one entry for
`d`, the second call returning `false` and performing no mutation; and
`remove_entry(d)` when no entry with domain `d` exists returns `false` and
leaves the file (before, entries, after) unchanged. -/
theorem c9_add_remove (h : HostsFile) (d ip : Str)
    (hc : domainCount h d ≤ 1) :
    (domainCount (((h.add_entry d ip).1.add_entry d ip).1) d = 1 ∧
     ((h.add_entry d ip).1.add_entry d ip).2 = false ∧
     ((h.add_entry d ip).1.add_entry d ip).1 = (h.add_entry d ip).1) ∧
    ((∀ e ∈ h.entries, e.domain ≠ d) → h.remove_entry d = (h, false)) := by
  constructor
  · by_cases hany : h.entries.any (fun e => e.domain == d) = true
    · have h1 : h.add_entry d ip = (h, false) := by
        unfold HostsFile.add_entry
        rw [if_pos hany]
      have hone : domainCount h d = 1 := by
        obtain ⟨e, hee, hbe⟩ := List.any_eq_true.mp hany
        have hmem : e ∈ h.entries.filter (fun e => e.domain == d) :=
          List.mem_filter.mpr ⟨hee, hbe⟩
        have : 0 < domainCount h d := by
          unfold domainCount
          exact List.length_pos.mpr (List.ne_nil_of_mem hmem)
        omega
      rw [h1]
      exact ⟨by rw [h1]; exact hone, by rw [h1], by rw [h1]⟩
    · have h1 : h.add_entry d ip =
          ({ h with entries := h.entries ++ [⟨ip, d⟩] }, true) := by
        unfold HostsFile.add_entry
        rw [if_neg hany]
      have hzero : h.entries.filter (fun e => e.domain == d) = [] := by
        rw [List.filter_eq_nil_iff]
        intro e hee
        have := List.any_eq_false.mp (Bool.eq_false_iff.mpr hany) e hee
        simp [this]
      have hany2 : (h.entries ++ [(⟨ip, d⟩ : HostEntry)]).any
          (fun e => e.domain == d) = true := by
        rw [List.any_append]
        simp
      have h2 : ({ h with entries := h.entries ++ [⟨ip, d⟩] } : HostsFile).add_entry d ip =
          ({ h with entries := h.entries ++ [⟨ip, d⟩] }, false) := by
        unfold HostsFile.add_entry
        rw [if_pos hany2]
      rw [h1, h2]
      refine ⟨?_, rfl, rfl⟩
      unfold domainCount
      simp only [List.filter_append, hzero, List.nil_append]
      simp
  · intro hall
    have hfil : h.entries.filter (fun e => ! (e.domain == d)) = h.entries := by
      rw [List.filter_eq_self]
      intro e hee
      simp [beq_eq_false_iff_ne.mpr (hall e hee)]
    unfold HostsFile.remove_entry
    simp only [hfil]
    simp

/-- Witness inputs for C9: the empty hosts file and a fresh domain. -/
def c9empty : HostsFile := ⟨[], [], []⟩

/-- Witness for `c9_add_remove`: adding `x.localhost` twice to the empty
file leaves one entry with the second call refusing, and removing from the
empty file returns false unchanged. -/
theorem c9_witness :
    domainCount (((c9empty.add_entry "x.localhost".toList "127.0.0.1".toList).1.add_entry
      "x.localhost".toList "127.0.0.1".toList).1) "x.localhost".toList = 1 ∧
    ((c9empty.add_entry "x.localhost".toList "127.0.0.1".toList).1.add_entry
      "x.localhost".toList "127.0.0.1".toList).2 = false ∧
    c9empty.remove_entry "x.localhost".toList = (c9empty, false) := by
  have h := c9_add_remove c9empty "x.localhost".toList "127.0.0.1".toList (by decide)
  exact ⟨h.1.1, h.1.2.1, h.2 (by decide)⟩

/-! ## Handler reduction and hop-by-hop lemmas -/

theorem handle_request_found (req : Req) (mappings : List Mapping) (env : Env)
    (host : Str) (m : Mapping)
    (hk : hostKeyOf req = some host) (hm : mappingFor mappings host = some m)
    (hu : env.uriOk (upstreamUriStr m.port req) = true) :
    handle_request req mappings env =
      match env.upstream (forwardedReq req m) with
      | .ok resp =>
        (⟨resp.status, hopFilter resp.headers, .stream resp.bodyId⟩,
         [forwardedReq req m])
      | .err e =>
        (⟨502, [], .text (badGatewayMsg m.port e)⟩, [forwardedReq req m]) := by
  simp only [handle_request, hk, hm, hu, if_true]

theorem hopFilter_no_hop (hs : List (Str × HVal)) :
    ∀ pr ∈ hopFilter hs, isHopByHop pr.1 = false := by
  intro pr hpr
  have := (List.mem_filter.mp hpr).2
  simpa using this

theorem hopFilter_keeps (hs : List (Str × HVal)) :
    ∀ pr ∈ hs, isHopByHop pr.1 = false → pr ∈ hopFilter hs := by
  intro pr hpr h
  exact List.mem_filter.mpr ⟨hpr, by simp [h]⟩

/-! ## Claim C3 -/

/-- C3: the handler's error behaviour.  An absent (or unreadable) `Host`
header yields 400 with body `Missing Host header` and no upstream request;
a lookup key matched by no mapping yields 404 with a body naming the
queried host and no upstream request; a failed upstream request yields 502
with a body naming the target port and the error text, with exactly one
upstream request issued and no retry. -/
theorem c3_responses (req : Req) (mappings : List Mapping) (env : Env) :
    (hostKeyOf req = none →
      handle_request req mappings env = (⟨400, [], .text missingHostMsg⟩, [])) ∧
    (∀ host, hostKeyOf req = some host → mappingFor mappings host = none →
      handle_request req mappings env =
        (⟨404, [], .text (noMappingMsg host)⟩, [])) ∧
    (∀ host m e, hostKeyOf req = some host →
      mappingFor mappings host = some m →
      env.uriOk (upstreamUriStr m.port req) = true →
      env.upstream (forwardedReq req m) = .err e →
      (handle_request req mappings env).1 =
        ⟨502, [], .text (badGatewayMsg m.port e)⟩ ∧
      (handle_request req mappings env).2 = [forwardedReq req m]) := by
  refine ⟨?_, ?_, ?_⟩
  · intro h
    simp only [handle_request, h]
  · intro host hk hm
    simp only [handle_request, hk, hm]
  · intro host m e hk hm hu he
    rw [handle_request_found req mappings env host m hk hm hu, he]
    exact ⟨rfl, rfl⟩

/-- The routing-table mapping of the spec's worked example. -/
def mA : Mapping := ⟨"a.localhost".toList, 9000, .unknown⟩

/-- The one-mapping routing table of the spec's worked example. -/
def maps1 : List Mapping := [mA]

/-- An environment whose upstream client always fails with a fixed
connection error. -/
def envAlwaysErr : Env := ⟨fun _ => true, fun _ => .err "connection refused".toList⟩

/-- A request with no `Host` header. -/
def reqNoHost : Req :=
  ⟨[("accept".toList, some "text/html".toList)], "GET".toList, none, 0⟩

/-- A request whose host matches no mapping. -/
def reqHostB : Req :=
  ⟨[("Host".toList, some "b.localhost".toList)], "GET".toList, none, 0⟩

/-- A request whose host matches the example mapping. -/
def reqHostA : Req :=
  ⟨[("Host".toList, some "a.localhost:8080".toList)], "GET".toList,
   some "/api?x=1".toList, 0⟩

/-- Witness for `c3_responses`: the three error paths at concrete inputs. -/
theorem c3_witness :
    handle_request reqNoHost maps1 envAlwaysErr =
      (⟨400, [], .text missingHostMsg⟩, []) ∧
    handle_request reqHostB maps1 envAlwaysErr =
      (⟨404, [], .text (noMappingMsg "b.localhost".toList)⟩, []) ∧
    ((handle_request reqHostA maps1 envAlwaysErr).1 =
      ⟨502, [], .text (badGatewayMsg 9000 "connection refused".toList)⟩ ∧
     (handle_request reqHostA maps1 envAlwaysErr).2 = [forwardedReq reqHostA mA]) :=
  ⟨(c3_responses reqNoHost maps1 envAlwaysErr).1 (by decide),
   (c3_responses reqHostB maps1 envAlwaysErr).2.1 "b.localhost".toList
     (by decide) (by decide),
   (c3_responses reqHostA maps1 envAlwaysErr).2.2 "a.localhost".toList mA
     "connection refused".toList (by decide) (by decide) (by decide) (by decide)⟩

/-! ## Claim C4 -/

/-- C4: hop-by-hop hygiene.  When the handler reaches the forwarding step,
the single forwarded request carries exactly the request headers passing
the case-insensitive block-list (none blocked, all others copied), and on
upstream success the response returned to the client carries exactly the
upstream response headers passing the same block-list. -/
theorem c4_hop_filtering (req : Req) (mappings : List Mapping) (env : Env)
    (host : Str) (m : Mapping) (resp : UpstreamResp)
    (hk : hostKeyOf req = some host) (hm : mappingFor mappings host = some m)
    (hu : env.uriOk (upstreamUriStr m.port req) = true) :
    ((handle_request req mappings env).2 = [forwardedReq req m] ∧
     (∀ pr ∈ (forwardedReq req m).headers, isHopByHop pr.1 = false) ∧
     (∀ pr ∈ req.headers, isHopByHop pr.1 = false →
        pr ∈ (forwardedReq req m).headers)) ∧
    (env.upstream (forwardedReq req m) = .ok resp →
     (handle_request req mappings env).1.headers = hopFilter resp.headers ∧
     (∀ pr ∈ (handle_request req mappings env).1.headers,
        isHopByHop pr.1 = false) ∧
     (∀ pr ∈ resp.headers, isHopByHop pr.1 = false →
        pr ∈ (handle_request req mappings env).1.headers)) := by
  constructor
  · refine ⟨?_, hopFilter_no_hop req.headers, hopFilter_keeps req.headers⟩
    cases hresp : env.upstream (forwardedReq req m) with
    | ok r => rw [handle_request_found req mappings env host m hk hm hu, hresp]
    | err e => rw [handle_request_found req mappings env host m hk hm hu, hresp]
  · intro hok
    rw [handle_request_found req mappings env host m hk hm hu, hok]
    exact ⟨rfl, hopFilter_no_hop resp.headers, hopFilter_keeps resp.headers⟩

/-- A request carrying `Connection: close` next to an ordinary header. -/
def c4req : Req :=
  ⟨[("Host".toList, some "a.localhost".toList),
    ("Connection".toList, some "close".toList),
    ("X-Custom".toList, some "1".toList)], "GET".toList, none, 0⟩

/-- An upstream response carrying `Transfer-Encoding` next to an ordinary
header. -/
def c4resp : UpstreamResp :=
  ⟨200, [("Transfer-Encoding".toList, some "chunked".toList),
         ("Content-Type".toList, some "text/plain".toList)], 7⟩

/-- An environment whose upstream client always answers `c4resp`. -/
def c4env : Env := ⟨fun _ => true, fun _ => .ok c4resp⟩

/-- Witness for `c4_hop_filtering`: `Connection: close` never reaches the
upstream server, the ordinary header does; `Transfer-Encoding` never
reaches the client. -/
theorem c4_witness :
    (handle_request c4req maps1 c4env).2 = [forwardedReq c4req mA] ∧
    ("Connection".toList, (some "close".toList : HVal)) ∉
      (forwardedReq c4req mA).headers ∧
    ("X-Custom".toList, (some "1".toList : HVal)) ∈
      (forwardedReq c4req mA).headers ∧
    (handle_request c4req maps1 c4env).1.headers = hopFilter c4resp.headers ∧
    ("Transfer-Encoding".toList, (some "chunked".toList : HVal)) ∉
      (handle_request c4req maps1 c4env).1.headers := by
  have h := c4_hop_filtering c4req maps1 c4env "a.localhost".toList mA c4resp
    (by decide) (by decide) (by decide)
  refine ⟨h.1.1, ?_, ?_, (h.2 rfl).1, ?_⟩
  · intro hmem
    exact absurd (h.1.2.1 _ hmem) (by decide)
  · exact h.1.2.2 _ (by decide) (by decide)
  · intro hmem
    exact absurd ((h.2 rfl).2.1 _ hmem) (by decide)

/-! ## Claim C5 -/

/-- C5: key derivation and forwarding URI.  For a request whose `Host`
header reads as `hv`, the lookup key is `hv` truncated at the first colon
and lowercased; when that key matches a mapping, the single upstream
request goes to `http://127.0.0.1:<port><path-and-query>` with the path
defaulting to `/`. -/
theorem c5_key_and_uri (req : Req) (mappings : List Mapping) (env : Env)
    (hv : Str) (m : Mapping)
    (hs : hostHeaderStr req = some hv)
    (hm : mappingFor mappings (rustLowercase (splitColonFirst hv)) = some m)
    (hu : env.uriOk (upstreamUriStr m.port req) = true) :
    hostKeyOf req = some (rustLowercase (splitColonFirst hv)) ∧
    (handle_request req mappings env).2.map (fun u => u.uri) =
      [upstreamUriStr m.port req] ∧
    upstreamUriStr m.port req = uriBase ++ natRepr m.port ++ pathOrSlash req := by
  have hk : hostKeyOf req = some (rustLowercase (splitColonFirst hv)) := by
    unfold hostKeyOf
    rw [hs]
    rfl
  refine ⟨hk, ?_, rfl⟩
  cases hresp : env.upstream (forwardedReq req m) with
  | ok r =>
    rw [handle_request_found req mappings env _ m hk hm hu, hresp]
    rfl
  | err e =>
    rw [handle_request_found req mappings env _ m hk hm hu, hresp]
    rfl

/-- The spec's worked example: `Host: a.localhost:8080`, no request path. -/
def c5req : Req :=
  ⟨[("Host".toList, some "a.localhost:8080".toList)], "GET".toList, none, 0⟩

/-- Witness for `c5_key_and_uri` at the spec's worked example: the key is
`a.localhost` and the upstream URI is `http://127.0.0.1:9000/`. -/
theorem c5_witness :
    hostKeyOf c5req = some (rustLowercase (splitColonFirst "a.localhost:8080".toList)) ∧
    (handle_request c5req maps1 envAlwaysErr).2.map (fun u => u.uri) =
      ["http://127.0.0.1:9000/".toList] ∧
    upstreamUriStr 9000 c5req = uriBase ++ natRepr 9000 ++ pathOrSlash c5req := by
  have h := c5_key_and_uri c5req maps1 envAlwaysErr "a.localhost:8080".toList mA
    (by decide) (by decide) (by decide)
  exact ⟨h.1, h.2.1.trans (by decide), h.2.2⟩

/-! ## Claim C10 -/

/-- C10: a `Host` header that is present but whose bytes cannot be read as
a string is treated like an absent header: 400 `Missing Host header`, no
table lookup result used, no upstream request issued. -/
theorem c10_invalid_host (req : Req) (mappings : List Mapping) (env : Env)
    (h : hostHeaderRaw req = some none) :
    handle_request req mappings env = (⟨400, [], .text missingHostMsg⟩, []) := by
  have hk : hostKeyOf req = none := by
    unfold hostKeyOf hostHeaderStr
    rw [h]
    rfl
  simp only [handle_request, hk]

/-- A request whose `Host` header is present but unreadable as a string. -/
def c10req : Req := ⟨[("Host".toList, (none : HVal))], "GET".toList, none, 0⟩

/-- Witness for `c10_invalid_host` at a concrete request. -/
theorem c10_witness :
    handle_request c10req maps1 envAlwaysErr =
      (⟨400, [], .text missingHostMsg⟩, []) :=
  c10_invalid_host c10req maps1 envAlwaysErr (by decide)
